import Mathlib

/-!
Verification development for the seedphrase balance-probing service.

Shallow embedding of:
* the balance-resolution pipeline `getBalance` and its helpers
  (`src/unnamed/part_000`, lines 157-340), including the generic response
  extractor `getNestedValue` (lines 230-238);
* the provider rotation registry (`src/lib/providerRotation.js`);
* the exchange-rate cache `updateAllExchangeRates` / `getExchangeRate`
  (`src/unnamed/part_000`, lines 109-155);
* the address-derivation dispatch `deriveAddress` and the ethereum special
  case in `startBot` (`src/unnamed/part_000`, lines 81-107 and 367-376).

External effects (HTTP fetches, RPC client calls, clocks) are made explicit:
each outbound call's outcome is supplied by an environment value, and
`Date.now()` readings are passed as explicit `Nat` timestamps.  JavaScript
exceptions are modelled with `Except String`; a `try`/`catch` in the source
becomes an explicit `match` on the `Except` value.  JavaScript `number`
arithmetic that feeds an on-chain amount (the aggregator branches) is
modelled with exact rationals (`Rat`); `Math.round` becomes `jsRound`.
-/

/-- JSON-like JavaScript values as received from providers.  `undefined` is
represented externally by `Option Json` (`none` = `undefined`).  A `num`
holds the value the program actually has in hand after `JSON.parse` — a
binary64 double — as an exact rational, so no further parsing error is
attached to it; arithmetic on it is modelled with the binary64 rounding
`fl` below. -/
inductive Json where
  | null : Json
  | bool (b : Bool) : Json
  | num (q : Rat) : Json
  | str (s : String) : Json
  | arr (xs : List Json) : Json
  | obj (fields : List (String × Json)) : Json

/-- JavaScript truthiness of a defined value. -/
def jsTruthy : Json → Bool
  | .null => false
  | .bool b => b
  | .num q => q ≠ 0
  | .str s => s ≠ ""
  | .arr _ => true
  | .obj _ => true

/-- Association-list lookup on object fields (keys of a JS object are
unique, first match wins). -/
def jsLookup : List (String × Json) → String → Option Json
  | [], _ => none
  | (k, v) :: rest, key => if k = key then some v else jsLookup rest key

def natOfDigits (ds : List Char) : Nat :=
  ds.foldl (fun n c => n * 10 + (c.toNat - 48)) 0

/-- JavaScript property access `o[key]` with a string key, for a defined
base (the source only performs it behind truthiness guards, so the base is
never `undefined`/`null` where this is used with a truthy base).  Arrays
answer all-digit keys by index; strings answer all-digit keys by character;
other primitives have no own properties of interest. -/
def jsIndexStr (j : Json) (key : String) : Option Json :=
  match j with
  | .obj fs => jsLookup fs key
  | .arr xs =>
      if key ≠ "" ∧ key.toList.all Char.isDigit then xs.get? (natOfDigits key.toList)
      else none
  | .str s =>
      if key ≠ "" ∧ key.toList.all Char.isDigit then
        (s.toList.get? (natOfDigits key.toList)).map (fun c => .str (String.mk [c]))
      else none
  | _ => none

/-- JavaScript element access `o[n]` with a numeric index (the bracketed
index produced by the path regex, fed through `parseInt`). -/
def jsIndexNat (j : Json) (n : Nat) : Option Json :=
  match j with
  | .arr xs => xs.get? n
  | .obj fs => jsLookup fs (toString n)
  | .str s => (s.toList.get? n).map (fun c => .str (String.mk [c]))
  | _ => none

/-- Word characters of the regex class `\w`. -/
def isWordChar (c : Char) : Bool := c.isAlphanum || c = '_'

/-- Maximal leading run satisfying `p`, with the remainder. -/
def spanList (p : Char → Bool) : List Char → List Char × List Char
  | [] => ([], [])
  | c :: cs =>
      if p c then
        let (run, rest) := spanList p cs
        (c :: run, rest)
      else ([], c :: cs)

/-- Leftmost match of the regex `(\w+)\[(\d+)\]` (source line 232) in a path
segment: the captured word run and bracketed index, or `none`.  `revRun` is
the word run (reversed) read so far ending just before the current
position. -/
def findIdxMatchAux (revRun : List Char) : List Char → Option (String × Nat)
  | [] => none
  | c :: rest =>
      if c = '[' then
        (if revRun.isEmpty then findIdxMatchAux [] rest
         else
           match spanList Char.isDigit rest with
           | (d :: ds, ']' :: _) => some (String.mk revRun.reverse, natOfDigits (d :: ds))
           | _ => findIdxMatchAux [] rest)
      else if isWordChar c then findIdxMatchAux (c :: revRun) rest
      else findIdxMatchAux [] rest

def findIdxMatch (seg : String) : Option (String × Nat) :=
  findIdxMatchAux [] seg.toList

/-- One `reduce` step of `getNestedValue` (source lines 231-237):
```js
const match = i.match(/(\w+)\[(\d+)\]/);
if (match) {
    return o && o[match[1]] ? o[match[1]][parseInt(match[2])] : undefined;
}
return o && o[i];
```
`none` is JavaScript `undefined`; a falsy accumulator short-circuits `&&`
and is returned (or yields `undefined` in the ternary). -/
def stepSeg (o : Option Json) (seg : String) : Option Json :=
  match findIdxMatch seg with
  | some (name, idx) =>
      match o with
      | some j =>
          if jsTruthy j then
            match jsIndexStr j name with
            | some v => if jsTruthy v then jsIndexNat v idx else none
            | none => none
          else none
      | none => none
  | none =>
      match o with
      | some j => if jsTruthy j then jsIndexStr j seg else some j
      | none => none

/-- `path.split('.')` of JavaScript: split on every dot, keeping empty
segments. -/
def splitOnDotAux (acc : List Char) : List Char → List String
  | [] => [String.mk acc.reverse]
  | c :: rest =>
      if c = '.' then String.mk acc.reverse :: splitOnDotAux [] rest
      else splitOnDotAux (c :: acc) rest

def jsSplitDot (s : String) : List String := splitOnDotAux [] s.toList

/-- `getNestedValue(obj, path)` (source lines 230-238): split the dotted
path and fold the per-segment accessor over it. -/
def getNestedValue (obj : Json) (path : String) : Option Json :=
  (jsSplitDot path).foldl stepSeg (some obj)

/-! ## Static configuration (source lines 29-79) -/

structure TokenCfg where
  address : String
  decimals : Nat
deriving DecidableEq

/-- Per-currency network configuration (`networks`, source lines 29-63).
The derivation-path strings are irrelevant to the balance pipeline and are
omitted; `tokens = []` models an absent `tokens` key. -/
structure NetworkCfg where
  decimals : Nat
  tokens : List (String × TokenCfg)
deriving DecidableEq

def networks : String → NetworkCfg
  | "bitcoin" => ⟨8, []⟩
  | "ethereum" => ⟨18, [("usdt", ⟨"0xdac17f958d2ee523a2206206994597c13d831ec7", 6⟩)]⟩
  | "solana" => ⟨9, []⟩
  | "ton" => ⟨9, []⟩
  | "tron" => ⟨6, [("usdt", ⟨"TXLAQ63Xg1NAzckPwKHvzw7CSEmLMEqcdj", 6⟩)]⟩
  | _ => ⟨0, []⟩

/-- Provider descriptor (`apiProviders` entries, source lines 65-79).  URL
templates are not modelled: the network request they parameterise is
abstracted by the attempt environment.  `hasApiKey` records whether an API
key is configured; `method`/`name` drive the dispatch in `getBalance`. -/
structure Provider where
  name : String
  hasApiKey : Bool
  responsePath : Option String
  method : Option String
deriving DecidableEq

def apiProviders : String → List Provider
  | "ethereum" => [⟨"etherscan", true, some "result", none⟩]
  | "bitcoin" => []
  | "tron" => [⟨"trongrid", false, some "data[0].balance", none⟩]
  | "solana" => [⟨"solana", false, some "value", some "getBalance"⟩]
  | "ton" => [⟨"toncenter", true, none, none⟩]
  | _ => []

/-! ## Numeric conversions -/

/-- `Math.round(x)` for a finite double `x`.  ECMA-262 defines it
mathematically on the Number's exact value: the closest integer, and the
larger one on ties — i.e. half toward positive infinity.  The argument is
the exact rational value of the double being rounded. -/
def jsRound (q : Rat) : Int := Int.fdiv (q + 1 / 2).num (q + 1 / 2).den

/-- Round a rational to an integer, nearest with ties to even — the IEEE
754 significand rounding. -/
def rte (x : Rat) : Int :=
  if x - ⌊x⌋ < 1 / 2 then ⌊x⌋
  else if 1 / 2 < x - ⌊x⌋ then ⌊x⌋ + 1
  else if ⌊x⌋ % 2 = 0 then ⌊x⌋ else ⌊x⌋ + 1

/-- Binary64 (JavaScript number) rounding: the double nearest to the exact
rational `x` (ties to even), i.e. `x` rounded to 53 significand bits at
`x`'s binade, with the exponent clamped below at the subnormal granularity
`2^(-1074)`.  Every arithmetic JS operation on doubles returns `fl` of the
exact result, so `a * b` in the source is modelled as `fl (a * b)`.
Values at or beyond `2^1024` overflow to infinity in JS; such magnitudes do
not arise from balances and are left unclamped here. -/
def fl (x : Rat) : Rat :=
  if x = 0 then 0
  else
    (rte (x * 2 ^ ((52 : Int) - max (Int.log 2 |x|) (-1022))) : Rat)
      * 2 ^ (max (Int.log 2 |x|) (-1022) - (52 : Int))

/-- `BigInt(v)` on the extracted scalar (source lines 248/253).  Integral
numbers convert exactly; fractional numbers throw `RangeError`; strings of
digits (with optional sign, empty string giving `0n`) parse exactly and any
other string throws `SyntaxError`; booleans convert to `0n`/`1n`; `null`,
arrays and objects are not produced by the configured response paths and
are conservatively modelled as throwing. -/
def parseBigIntStr (s : String) : Option Int :=
  match s.toList with
  | [] => some 0
  | '-' :: ds =>
      if (decide (ds ≠ []) && ds.all Char.isDigit) = true then some (-(natOfDigits ds : Int))
      else none
  | '+' :: ds =>
      if (decide (ds ≠ []) && ds.all Char.isDigit) = true then some ((natOfDigits ds : Int))
      else none
  | ds =>
      if ds.all Char.isDigit then some ((natOfDigits ds : Int)) else none

def bigIntOfJson : Json → Except String Int
  | .num q => if q.den = 1 then .ok q.num else .error "RangeError: not an integer"
  | .str s =>
      match parseBigIntStr s with
      | some n => .ok n
      | none => .error "SyntaxError: cannot convert string to a BigInt"
  | .bool b => .ok (if b then 1 else 0)
  | _ => .error "cannot convert value to a BigInt"

/-- Split a character list at the first `e`/`E` (exponent marker). -/
def splitOnE : List Char → List Char × Option (List Char)
  | [] => ([], none)
  | c :: rest =>
      if c = 'e' ∨ c = 'E' then ([], some rest)
      else
        let r := splitOnE rest
        (c :: r.1, r.2)

/-- Split a character list at the first `.`. -/
def splitOnDotC : List Char → List Char × Option (List Char)
  | [] => ([], none)
  | c :: rest =>
      if c = '.' then ([], some rest)
      else
        let r := splitOnDotC rest
        (c :: r.1, r.2)

/-- Exponent part of a decimal literal: optional sign then digits. -/
def parseExpPart : List Char → Option Int
  | [] => none
  | '+' :: ds =>
      if (decide (ds ≠ []) && ds.all Char.isDigit) = true then some ((natOfDigits ds : Int))
      else none
  | '-' :: ds =>
      if (decide (ds ≠ []) && ds.all Char.isDigit) = true then some (-(natOfDigits ds : Int))
      else none
  | ds => if ds.all Char.isDigit then some ((natOfDigits ds : Int)) else none

/-- Unsigned mantissa `digits[.digits]` of a decimal literal (one side of
the dot may be empty, not both), as an exact rational. -/
def parseMantissa (cs : List Char) : Option Rat :=
  let r := splitOnDotC cs
  match r.2 with
  | none =>
      if (decide (r.1 ≠ []) && r.1.all Char.isDigit) = true then
        some ((natOfDigits r.1 : Rat))
      else none
  | some f =>
      if (r.1.all Char.isDigit && f.all Char.isDigit
            && (decide (r.1 ≠ []) || decide (f ≠ []))) = true then
        some ((natOfDigits r.1 : Rat) + (natOfDigits f : Rat) / (10 : Rat) ^ f.length)
      else none

/-- Exact rational value of an unsigned decimal literal
`mantissa[(e|E)[sign]digits]`. -/
def parseDecExact (cs : List Char) : Option Rat :=
  let r := splitOnE cs
  match r.2 with
  | none => parseMantissa r.1
  | some e =>
      match parseMantissa r.1, parseExpPart e with
      | some mv, some ev => some (mv * (10 : Rat) ^ ev)
      | _, _ => none

/-- `ToNumber` on a string (JS `Number(s)` and implicit coercion in
arithmetic): the empty string is `0`, a decimal literal parses to its
exact value rounded to the nearest double (`fl`), anything else is `NaN`
(`none`).  Whitespace trimming and the `Infinity`/hex/octal/binary forms
are not modelled; provider responses do not use them. -/
def jsStringToNumber (s : String) : Option Rat :=
  match s.toList with
  | [] => some 0
  | '+' :: cs => (parseDecExact cs).map fl
  | '-' :: cs => (parseDecExact cs).map (fun r => fl (-r))
  | cs => (parseDecExact cs).map fl

/-- `ToNumber` on a JSON value: numbers are already doubles, strings
coerce via the decimal grammar, booleans to `1`/`0`, `null` to `0`;
arrays/objects go through `toPrimitive` and are not modelled (`none`,
i.e. `NaN` — no provider returns one in a balance field). -/
def jsToNumber : Json → Option Rat
  | .num q => some q
  | .str s => jsStringToNumber s
  | .bool b => some (if b then 1 else 0)
  | .null => some 0
  | .arr _ => none
  | .obj _ => none

/-- Read a field as a JavaScript number, as the aggregator branches do
(`data.balance * 1e8`, `Number(data.balance) * 10 ** decimals`).  A
missing field is `undefined`, whose `ToNumber` is `NaN` (`none`), making
`Math.round` produce `NaN` and `BigInt` throw. -/
def jsNumField (body : Json) (key : String) : Option Rat :=
  match body with
  | .obj fs =>
      match jsLookup fs key with
      | some v => jsToNumber v
      | none => none
  | _ => none

def jsField (body : Json) (key : String) : Option Json :=
  match body with
  | .obj fs => jsLookup fs key
  | _ => none

/-! ## Balance pipeline (source lines 157-340) -/

/-- The result shape `{ native, tokens? }` returned by `getBalance`.
`tokens = none` models an object without a `tokens` key. -/
structure BalanceResult where
  native : Int
  tokens : Option (List (String × Int))
deriving DecidableEq

/-- Outcome of one outbound HTTP `fetch` (or of parsing its body):
either the call threw, or it produced a response with `ok`, `status` and a
parsed body value. -/
inductive CallOutcome where
  | oThrow (msg : String)
  | oResp (ok : Bool) (status : Nat) (body : Json)

/-- External outcomes available to one loop iteration of `getBalance`:
the provider request itself, the stateful-client balance (solana
`connection.getBalance` / toncenter `client.getBalance`), and the
token-sub-lookup calls keyed as in the source. -/
structure AttemptEnv where
  primary : CallOutcome
  client : Except String Int
  ethUsdtFetch : CallOutcome
  ethContract : String → Except String Int
  tronUsdtFetch : CallOutcome
  tronContract : String → Except String Int

/-- All outbound-call outcomes for one `getBalance` invocation: the bitcoin
aggregator fetch, plus one `AttemptEnv` per (provider, retry) attempt,
numbered consecutively (3 slots per provider). -/
structure Env where
  btcAgg : CallOutcome
  attempt : Nat → AttemptEnv

/-- `data.data && data.data.length === 0` (source line 222). -/
def isEmptyDataArr (body : Json) : Bool :=
  match jsField body "data" with
  | some (.arr []) => true
  | _ => false

/-- `data.status !== '1'` for etherscan (source line 226), negated. -/
def statusIsOne (body : Json) : Bool :=
  match jsField body "status" with
  | some (.str s) => s = "1"
  | _ => false

/-- The generic REST branch of one attempt (source lines 200-256), up to
the point where `balance` is set: non-2xx statuses throw (429 with a
distinguished message), an empty tron account list returns
`{ native: 0n, tokens: {} }` from the whole call (`Sum.inl`), an etherscan
status other than `'1'` throws, and otherwise the response path is
extracted: `undefined`/`null` leave `balance = 0n`, any other value goes
through `BigInt`. -/
def restCore (currency : String) (p : Provider) (co : CallOutcome) :
    Except String (Sum BalanceResult Int) :=
  match co with
  | .oThrow m => .error m
  | .oResp ok status body =>
      if ok = false then
        .error (if status = 429 then "API request failed with status 429 (Rate Limited)"
                else "API request failed with status " ++ toString status)
      else if currency = "tron" ∧ isEmptyDataArr body then
        .ok (.inl ⟨0, some []⟩)
      else if p.name = "etherscan" ∧ ¬ statusIsOne body then
        .error "Etherscan API error"
      else
        match p.responsePath with
        | none => .error "TypeError: path is undefined"
        | some path =>
            match getNestedValue body path with
            | none => .ok (.inr 0)
            | some .null => .ok (.inr 0)
            | some v =>
                match bigIntOfJson v with
                | .ok n => .ok (.inr n)
                | .error m => .error m

/-- One token sub-lookup (source lines 266-311).  The ethereum USDT fetch
and the ethereum contract read are *not* wrapped in a local `try`, so their
exceptions propagate to the retry loop; both tron paths swallow their
errors and leave the token balance at `0n`.  A non-ok ethereum USDT
response leaves the balance at `0n` without throwing.  The USDT scaling
`BigInt(Math.round(balance * 10 ** decimals))` is a binary64 multiply
(`10 ** 6` is exactly representable), hence `fl` of the exact product. -/
def tokenVal (currency : String) (ae : AttemptEnv) (tok : String) (cfg : TokenCfg) :
    Except String Int :=
  if currency = "ethereum" then
    if tok = "usdt" then
      match ae.ethUsdtFetch with
      | .oThrow m => .error m
      | .oResp true _ body =>
          match jsNumField body "balance" with
          | some q => .ok (jsRound (fl (q * (10 : Rat) ^ cfg.decimals)))
          | none => .error "RangeError: NaN cannot be converted to a BigInt"
      | .oResp false _ _ => .ok 0
    else ae.ethContract cfg.address
  else if currency = "tron" then
    if tok = "usdt" then
      .ok (match ae.tronUsdtFetch with
        | .oResp true _ body =>
            match jsNumField body "balance" with
            | some q => jsRound (fl (q * (10 : Rat) ^ cfg.decimals))
            | none => 0
        | _ => 0)
    else
      .ok (match ae.tronContract cfg.address with
        | .ok b => b
        | .error _ => 0)
  else .ok 0

/-- The `for (const token in network.tokens)` loop (source lines 266-316):
accumulate, in iteration order, exactly the strictly positive looked-up
balances. -/
def tokensLoop (currency : String) (ae : AttemptEnv) :
    List (String × TokenCfg) → Except String (List (String × Int))
  | [] => .ok []
  | (tok, cfg) :: rest =>
      match tokenVal currency ae tok cfg with
      | .error m => .error m
      | .ok v =>
          match tokensLoop currency ae rest with
          | .error m => .error m
          | .ok tb => .ok (if 0 < v then (tok, v) :: tb else tb)

/-- One full try-block iteration (source lines 189-322): dispatch on the
provider's access method, then run the token sub-lookups and assemble the
result, leaving `tokens` unset when no token balance is positive. -/
def runAttempt (currency : String) (p : Provider) (net : NetworkCfg) (ae : AttemptEnv) :
    Except String BalanceResult :=
  let core : Except String (Sum BalanceResult Int) :=
    if p.method = some "getBalance" then ae.client.map .inr
    else if p.name = "toncenter" then ae.client.map .inr
    else restCore currency p ae.primary
  match core with
  | .error m => .error m
  | .ok (.inl early) => .ok early
  | .ok (.inr bal) =>
      match tokensLoop currency ae net.tokens with
      | .error m => .error m
      | .ok tb => .ok ⟨bal, if tb = [] then none else some tb⟩

/-- Instrumented outcome of one provider's `while (retries > 0)` loop:
the returned result if an attempt succeeded, the backoff sleeps performed,
and the number of caught failures (one `console.error` each). -/
structure RetryOut where
  result : Option BalanceResult
  sleeps : List Nat
  fails : Nat
deriving DecidableEq

/-- The retry loop (source lines 185-336): `retries = 3`, `delay = 4000`;
on a caught failure decrement `retries`, and if any remain sleep `delay`
then double it; otherwise break to the next provider. -/
def retryLoop (currency : String) (p : Provider) (net : NetworkCfg)
    (att : Nat → AttemptEnv) : Nat → Nat → Nat → RetryOut
  | _, 0, _ => ⟨none, [], 0⟩
  | k, retries + 1, delay =>
      match runAttempt currency p net (att k) with
      | .ok r => ⟨some r, [], 0⟩
      | .error _ =>
          if 0 < retries then
            let rest := retryLoop currency p net att (k + 1) retries (delay * 2)
            ⟨rest.result, delay :: rest.sleeps, rest.fails + 1⟩
          else ⟨none, [], 1⟩

/-- The `for (const provider of providers)` loop (source lines 184-337),
also recording the names of the providers actually attempted. -/
def providerLoop (currency : String) (net : NetworkCfg) (att : Nat → AttemptEnv) :
    List Provider → Nat → BalanceResult × List String
  | [], _ => (⟨0, none⟩, [])
  | p :: rest, k =>
      let ro := retryLoop currency p net att k 3 4000
      match ro.result with
      | some r => (r, [p.name])
      | none =>
          ((providerLoop currency net att rest (k + 3)).1,
           p.name :: (providerLoop currency net att rest (k + 3)).2)

/-- The bitcoin aggregator branch (source lines 158-172): on an ok
response, `BigInt(Math.round(data.balance * 1e8))` — a binary64 multiply
of the parsed double by the exactly-representable `1e8`, i.e. `fl` of the
exact product, then the mathematical `Math.round`.  A thrown fetch, a
non-ok response, or a `NaN` product (missing/non-numeric field) all end in
`{ native: 0n }`. -/
def btcBranch (agg : CallOutcome) : BalanceResult :=
  match agg with
  | .oResp true _ body =>
      match jsNumField body "balance" with
      | some q => ⟨jsRound (fl (q * 100000000)), none⟩
      | none => ⟨0, none⟩
  | _ => ⟨0, none⟩

/-- `getBalance(currency, address)` (source lines 157-340).  The address
only parameterises the outbound requests, which the environment abstracts,
so it does not appear.  An unknown currency has `apiProviders` `undefined`,
which the `!providers` guard turns into the empty list. -/
def getBalance (currency : String) (env : Env) : BalanceResult :=
  if currency = "bitcoin" then btcBranch env.btcAgg
  else if apiProviders currency = [] then ⟨0, none⟩
  else (providerLoop currency (networks currency) env.attempt (apiProviders currency) 0).1

/-- The sequence of provider names `getBalance` issues requests to. -/
def attemptedProviders (currency : String) (env : Env) : List String :=
  if currency = "bitcoin" then []
  else if apiProviders currency = [] then []
  else (providerLoop currency (networks currency) env.attempt (apiProviders currency) 0).2

/-! ## Provider rotation registry (`src/lib/providerRotation.js`) -/

/-- A registered provider descriptor as the registry sees it; only the
`name` field is consulted. -/
structure RotProvider where
  name : String
deriving DecidableEq

/-- Association-list read, modelling `Map.get` (`undefined` = `none`). -/
def alGet {α : Type} : List (String × α) → String → Option α
  | [], _ => none
  | (k, v) :: rest, key => if k = key then some v else alGet rest key

/-- Association-list write, modelling `Map.set` (overwrite or append). -/
def alSet {α : Type} : List (String × α) → String → α → List (String × α)
  | [], key, v => [(key, v)]
  | (k, w) :: rest, key, v =>
      if k = key then (key, v) :: rest else (k, w) :: alSet rest key v

/-- The registry state: the module-global `providers` map plus the
`ProviderRotation` instance fields `lastUsedIndex` and `cooldowns`
(cooldowns keyed by `` `${currency}-${provider.name}` ``). -/
structure RotState where
  registered : List (String × List RotProvider)
  lastUsedIndex : List (String × Nat)
  cooldowns : List (String × Nat)

def cdKey (currency pname : String) : String := currency ++ "-" ++ pname

/-- The `while (attempts < availableProviders.length)` scan (source lines
17-29): advance the index cyclically and return the first index whose
cooldown has expired, giving up after `attemptsLeft` skips. -/
def rotGo (st : RotState) (currency : String) (now : Nat) (avail : List RotProvider) :
    Nat → Nat → Option Nat
  | _, 0 => none
  | currentIndex, attemptsLeft + 1 =>
      let ci := (currentIndex + 1) % avail.length
      let p := avail.getD ci ⟨""⟩
      let cooldownUntil := (alGet st.cooldowns (cdKey currency p.name)).getD 0
      if cooldownUntil ≤ now then some ci
      else rotGo st currency now avail ci attemptsLeft

/-- `getNextProvider(currency)` (source lines 9-32) at clock reading
`now`. -/
def getNextProvider (st : RotState) (currency : String) (now : Nat) :
    Option RotProvider × RotState :=
  let avail := (alGet st.registered currency).getD []
  if avail.length = 0 then (none, st)
  else
    match rotGo st currency now avail ((alGet st.lastUsedIndex currency).getD 0)
        avail.length with
    | some ci =>
        (some (avail.getD ci ⟨""⟩),
         { st with lastUsedIndex := alSet st.lastUsedIndex currency ci })
    | none => (none, st)

/-- `setCooldown(currency, providerName, duration)` (source lines 34-38) at
clock reading `now`. -/
def setCooldown (st : RotState) (currency pname : String) (dur now : Nat) : RotState :=
  { st with cooldowns := alSet st.cooldowns (cdKey currency pname) (now + dur) }

/-- `registerProviders(currency, providersList)` (source lines 40-42). -/
def registerProviders (st : RotState) (currency : String) (ps : List RotProvider) : RotState :=
  { st with registered := alSet st.registered currency ps }

/-- Whether a provider is in cooldown at clock reading `now`: the negation
of the eligibility test `now >= cooldownUntil` of `getNextProvider`. -/
def providerInCooldown (st : RotState) (currency pname : String) (now : Nat) : Bool :=
  now < (alGet st.cooldowns (cdKey currency pname)).getD 0

/-- `m` consecutive `getNextProvider` calls for one currency; call `i` is
made at clock reading `times i`. -/
def callSeq (st : RotState) (currency : String) :
    Nat → (Nat → Nat) → List (Option RotProvider) × RotState
  | 0, _ => ([], st)
  | m + 1, times =>
      let r := getNextProvider st currency (times 0)
      let rest := callSeq r.2 currency m (fun i => times (i + 1))
      (r.1 :: rest.1, rest.2)

/-! ## Exchange-rate cache (source lines 109-155) -/

def mobulaSymbols : List (String × String) :=
  [("bitcoin", "BTC"), ("ethereum", "ETH"), ("solana", "SOL"), ("ton", "TON"),
   ("usdt", "USDT")]

/-- `Object.keys(mobulaSymbols).find(key => mobulaSymbols[key] === symbol)`
(source line 127). -/
def symbolToCurrency (sym : String) : Option String :=
  (mobulaSymbols.find? (fun kv => kv.2 = sym)).map (fun kv => kv.1)

/-- The parsed CryptoCompare body: whether it carries
`Response === 'Error'`, and its per-symbol entries where the value is the
`USD` field when present (`none` for a missing or otherwise falsy field). -/
structure RatesData where
  isErrorResponse : Bool
  entries : List (String × Option Rat)

/-- Outcome of the price-feed fetch: a thrown error or a response. -/
inductive RatesOutcome where
  | rThrow (msg : String)
  | rResp (ok : Bool) (data : RatesData)

/-- The hardcoded fallback assignments of both failure branches (source
lines 136-140 and 145-149), in program order. -/
def fallbackAssignments : List (String × Rat) :=
  [("bitcoin", 60000), ("ethereum", 3000), ("solana", 150), ("ton", 6), ("usdt", 1)]

def applyFallbacks (cache : List (String × Rat)) : List (String × Rat) :=
  fallbackAssignments.foldl (fun c kv => alSet c kv.1 kv.2) cache

/-- One iteration of `for (const symbol in data)` (source lines 126-131):
if the symbol maps back to a tracked currency and `data[symbol].USD` is
truthy, overwrite that currency's cached rate. -/
def rateStep (c : List (String × Rat)) (e : String × Option Rat) : List (String × Rat) :=
  match symbolToCurrency e.1 with
  | some currency =>
      match e.2 with
      | some usd => if usd ≠ 0 then alSet c currency usd else c
      | none => c
  | none => c

/-- `updateAllExchangeRates()` (source lines 118-151) acting on the cache,
with the fetch outcome supplied by the environment.  On
`response.ok && data.Response !== 'Error'`, write `data[symbol].USD` for
every iterated symbol that maps back to a tracked currency and whose value
is truthy; on any throw or failed check, write all fallback prices. -/
def updateAllExchangeRates (cache : List (String × Rat)) (o : RatesOutcome) :
    List (String × Rat) :=
  match o with
  | .rThrow _ => applyFallbacks cache
  | .rResp ok data =>
      if ok ∧ data.isErrorResponse = false then data.entries.foldl rateStep cache
      else applyFallbacks cache

/-- `getExchangeRate(currency)` (source lines 153-155):
`exchangeRateCache[currency] || 0`. -/
def getExchangeRate (cache : List (String × Rat)) (currency : String) : Rat :=
  (alGet cache currency).getD 0

/-- A total failure of the refresh: the fetch threw, the response was not
ok, or the body carried the explicit error indicator. -/
def ratesTotalFailure : RatesOutcome → Prop
  | .rThrow _ => True
  | .rResp ok data => ¬(ok ∧ data.isErrorResponse = false)

def ratesEntries : RatesOutcome → List (String × Option Rat)
  | .rThrow _ => []
  | .rResp _ data => data.entries

/-! ## Address derivation dispatch (source lines 81-107, 367-376) -/

/-- The key material handed to `deriveAddress`: seed bytes, the bip32 root
(abstracted), and the mnemonic phrase. -/
structure KeyMaterial where
  seed : List Nat
  rootKey : Nat
  mnemonic : String

/-- The chain-specific derivation algorithms, delegated to external
libraries by the source and therefore abstracted as opaque-to-us function
parameters of the model. -/
structure DeriveStrategies where
  bitcoinDerive : KeyMaterial → String
  solanaDerive : KeyMaterial → String
  tonDerive : KeyMaterial → String
  tronDerive : KeyMaterial → String
  ethereumFromPhrase : String → String

/-- `deriveAddress(currency, { seed, root, mnemonic })` (source lines
81-107): the `switch` over the four supported chains, with the default
branch throwing. -/
def deriveAddress (s : DeriveStrategies) (currency : String) (km : KeyMaterial) :
    Except String String :=
  if currency = "bitcoin" then .ok (s.bitcoinDerive km)
  else if currency = "solana" then .ok (s.solanaDerive km)
  else if currency = "ton" then .ok (s.tonDerive km)
  else if currency = "tron" then .ok (s.tronDerive km)
  else .error ("Unsupported currency for derivation: " ++ currency)

/-- The address selection in `startBot` (source lines 371-376): ethereum is
derived via `ethers.Wallet.fromPhrase(mnemonic)`, every other currency via
`deriveAddress`. -/
def startBotAddress (s : DeriveStrategies) (currency : String) (km : KeyMaterial) :
    Except String String :=
  if currency = "ethereum" then .ok (s.ethereumFromPhrase km.mnemonic)
  else deriveAddress s currency km

/-! ## Concrete environments used by the theorems below -/

/-- An attempt environment in which every outbound call fails. -/
def failAttemptEnv : AttemptEnv :=
  ⟨.oThrow "network down", .error "network down", .oThrow "network down",
   fun _ => .error "network down", .oThrow "network down", fun _ => .error "network down"⟩

/-- Every call of the whole invocation fails. -/
def envAllFailW : Env := ⟨.oThrow "network down", fun _ => failAttemptEnv⟩

/-- A failure of the bitcoin aggregator call, in any of the claim's modes:
thrown fetch (network error), non-2xx response, or an ok response without
a coercible numeric `balance` (the `NaN` product makes `BigInt` throw,
which the branch catches). -/
def btcAggFails (co : CallOutcome) : Prop :=
  (∃ m, co = .oThrow m) ∨ (∃ st body, co = .oResp false st body)
  ∨ (∃ st body, co = .oResp true st body ∧ jsNumField body "balance" = none)

/-- One attempt fails for every provider in `ps`: the RPC-style client
call errors, and the REST processing errors — which happens exactly on the
claim's failure modes: a thrown fetch, a non-2xx status (429 included), an
etherscan error status, or a malformed value at the response path that
`BigInt` rejects (`restCore` returns `.error` on precisely those
outcomes). -/
def attemptFails (currency : String) (ps : List Provider) (ae : AttemptEnv) : Prop :=
  (∃ m, ae.client = .error m)
  ∧ ∀ p ∈ ps, ∃ m, restCore currency p ae.primary = .error m

/-- Every outbound call of the invocation fails (in any mode). -/
def envAllFail (currency : String) (env : Env) : Prop :=
  btcAggFails env.btcAgg
  ∧ ∀ k, attemptFails currency (apiProviders currency) (env.attempt k)

/-- Every call is answered with HTTP 429 (rate limited) and every client
call errors. -/
def env429 : Env :=
  ⟨.oResp false 429 .null,
   fun _ =>
     ⟨.oResp false 429 .null, .error "rate limited", .oResp false 429 .null,
      fun _ => .error "rate limited", .oResp false 429 .null,
      fun _ => .error "rate limited"⟩⟩

/-- Bitcoin run: the aggregator answers ok with `{"balance": q}`. -/
def envBtcOf (q : Rat) : Env :=
  ⟨.oResp true 200 (.obj [("balance", .num q)]), fun _ => failAttemptEnv⟩

/-- Ethereum run: etherscan answers ok with `status "1"` and `result n`;
the USDT sub-lookup gets a non-ok response (leaving the token balance 0). -/
def envEthOf (n : Int) : Env :=
  ⟨.oThrow "unused",
   fun _ =>
     ⟨.oResp true 200 (.obj [("status", .str "1"), ("result", .num (n : Rat))]),
      .error "unused", .oResp false 500 .null, fun _ => .error "unused",
      .oThrow "unused", fun _ => .error "unused"⟩⟩

/-- An attempt whose RPC-style client call (solana `getBalance` /
toncenter) returns `n`; everything else unused. -/
def aeClientOf (n : Int) : AttemptEnv :=
  ⟨.oThrow "unused", .ok n, .oThrow "unused", fun _ => .error "unused",
   .oThrow "unused", fun _ => .error "unused"⟩

/-- An attempt whose USDT aggregator fetches (both chains) answer ok with
`{"balance": q}`; everything else unused. -/
def aeUsdtOf (q : Rat) : AttemptEnv :=
  ⟨.oThrow "unused", .error "unused", .oResp true 200 (.obj [("balance", .num q)]),
   fun _ => .error "unused", .oResp true 200 (.obj [("balance", .num q)]),
   fun _ => .error "unused"⟩

/-- Tron attempt: trongrid answers ok with `{"data":[{"balance": n}]}` and
the TRC-20 USDT aggregator call has outcome `co`. -/
def aeTronTokenOf (n : Int) (co : CallOutcome) : AttemptEnv :=
  ⟨.oResp true 200 (.obj [("data", .arr [.obj [("balance", .num (n : Rat))]])]),
   .error "unused", .oThrow "unused", fun _ => .error "unused", co,
   fun _ => .error "unused"⟩

def envTronTokenOf (n : Int) (co : CallOutcome) : Env :=
  ⟨.oThrow "unused", fun _ => aeTronTokenOf n co⟩

/-- Tron run: trongrid reports native balance `n` and the USDT aggregator
answers ok with `{"balance": q}` (`q` in USDT main units). -/
def envTronOf (n : Int) (q : Rat) : Env :=
  envTronTokenOf n (.oResp true 200 (.obj [("balance", .num q)]))

/-- Ethereum attempt: etherscan answers ok with `status "1"` and
`result n`, and the ERC-20 USDT aggregator call has outcome `co`. -/
def aeEthTokenOf (n : Int) (co : CallOutcome) : AttemptEnv :=
  ⟨.oResp true 200 (.obj [("status", .str "1"), ("result", .num (n : Rat))]),
   .error "unused", co, fun _ => .error "unused", .oThrow "unused",
   fun _ => .error "unused"⟩

def envEthTokenOf (n : Int) (co : CallOutcome) : Env :=
  ⟨.oThrow "unused", fun _ => aeEthTokenOf n co⟩

/-- The response body of the extraction example:
`{"data":[{"balance":"500"}]}`. -/
def extractionBody : Json := .obj [("data", .arr [.obj [("balance", .str "500")]])]

/-- Tron run delivering `extractionBody`, with the USDT sub-lookup
throwing (swallowed by its local catch). -/
def envExtraction : Env :=
  ⟨.oThrow "unused",
   fun _ =>
     ⟨.oResp true 200 extractionBody, .error "unused", .oThrow "unused",
      fun _ => .error "unused", .oThrow "boom", fun _ => .error "unused"⟩⟩

/-- A provider configured with the out-of-range path `data[1].balance`. -/
def outOfRangeProvider : Provider := ⟨"trongrid", false, some "data[1].balance", none⟩

/-- Ton run whose toncenter client call fails on attempts 0 and 1 and
returns `n` nanotons on attempt 2. -/
def envTonRetries (n : Int) : Env :=
  ⟨.oThrow "unused",
   fun k =>
     if k = 2 then
       ⟨.oThrow "unused", .ok n, .oThrow "unused", fun _ => .error "unused",
        .oThrow "unused", fun _ => .error "unused"⟩
     else
       ⟨.oThrow "unused", .error "socket hang up", .oThrow "unused",
        fun _ => .error "unused", .oThrow "unused", fun _ => .error "unused"⟩⟩

/-- A registry in which tron's single provider `trongrid` is registered and
was put in a 60000 ms cooldown at clock reading 0. -/
def cooledRegistry : RotState :=
  setCooldown ⟨[("tron", [⟨"trongrid"⟩])], [], []⟩ "tron" "trongrid" 60000 0

/-! ## Helper lemmas -/

theorem jsRound_eq_floor (q : Rat) : jsRound q = ⌊q + 1 / 2⌋ := by
  rw [jsRound, Int.fdiv_eq_ediv _ (Int.natCast_nonneg _), Rat.floor_def]

theorem bigIntOfJson_intCast (n : Int) : bigIntOfJson (.num (n : Rat)) = .ok n := by
  simp [bigIntOfJson, Rat.den_intCast, Rat.num_intCast]

theorem rte_intCast (n : Int) : rte (n : Rat) = n := by
  simp [rte, Int.floor_intCast]

/-- Binary64 rounding fixes every value already representable as a double:
an integer significand below `2^53` times a power of two no smaller than
the subnormal granularity `2^(-1074)`. -/
theorem fl_eq_of_repr (x : Rat) (m e : Int) (hm : |m| < 2 ^ 53) (he : -1074 ≤ e)
    (hx : x = (m : Rat) * 2 ^ e) : fl x = x := by
  by_cases hx0 : x = 0
  · rw [hx0]
    simp [fl]
  · have h2 : (2 : Rat) ≠ 0 := by norm_num
    have hxpos : 0 < |x| := abs_pos.mpr hx0
    have hxabs : |x| < 2 ^ (e + 53) := by
      rw [hx, abs_mul, abs_of_pos (zpow_pos (by norm_num : (0 : Rat) < 2) e)]
      have hmq : |(m : Rat)| < 2 ^ (53 : Nat) := by
        rw [← Int.cast_abs]
        exact_mod_cast hm
      calc |(m : Rat)| * 2 ^ e
          < 2 ^ (53 : Nat) * 2 ^ e :=
            mul_lt_mul_of_pos_right hmq (zpow_pos (by norm_num) e)
        _ = 2 ^ (e + 53) := by
            rw [← zpow_natCast (2 : Rat) 53, ← zpow_add₀ h2]
            congr 1
            omega
    have hlog : Int.log 2 |x| ≤ e + 52 := by
      by_contra hlt
      push_neg at hlt
      have h1 : (2 : Rat) ^ (e + 53) ≤ 2 ^ Int.log 2 |x| :=
        zpow_le_zpow_right₀ (by norm_num) (by omega)
      have hzls : (2 : Rat) ^ Int.log 2 |x| ≤ |x| := by
        exact_mod_cast Int.zpow_log_le_self (b := 2) (by norm_num) hxpos
      linarith
    obtain ⟨E, hEdef⟩ : ∃ E : Int, max (Int.log 2 |x|) (-1022) = E := ⟨_, rfl⟩
    have hEle : E ≤ e + 52 := hEdef ▸ max_le hlog (by omega)
    have hEnn : (0 : Int) ≤ e + 52 - E := by omega
    have hkey : x * 2 ^ ((52 : Int) - E)
        = ((m * 2 ^ (e + 52 - E).toNat : Int) : Rat) := by
      push_cast
      rw [← zpow_natCast (2 : Rat), Int.toNat_of_nonneg hEnn, hx, mul_assoc,
        ← zpow_add₀ h2]
      have hexp : e + (52 - E) = e + 52 - E := by omega
      rw [hexp]
    unfold fl
    rw [if_neg hx0, hEdef, hkey, rte_intCast, ← hkey, mul_assoc, ← zpow_add₀ h2]
    have hzero : (52 : Int) - E + (E - 52) = 0 := by omega
    rw [hzero, zpow_zero, mul_one]

/-- Membership in the accumulated token map characterised: a token symbol
is present with value `v` exactly when some configured token with that
symbol looked up `v` and `v` is strictly positive. -/
theorem tokensLoop_mem (currency : String) (ae : AttemptEnv) :
    ∀ (toks : List (String × TokenCfg)) (tb : List (String × Int)),
      tokensLoop currency ae toks = .ok tb →
      ∀ (sym : String) (v : Int),
        ((sym, v) ∈ tb ↔
          ∃ cfg, (sym, cfg) ∈ toks ∧ tokenVal currency ae sym cfg = .ok v ∧ 0 < v) := by
  intro toks
  induction toks with
  | nil =>
      intro tb htl sym v
      cases htl
      simp
  | cons tc rest ih =>
      obtain ⟨t, cfg⟩ := tc
      intro tb htl sym v
      simp only [tokensLoop] at htl
      cases htv : tokenVal currency ae t cfg with
      | error m => rw [htv] at htl; cases htl
      | ok v0 =>
          rw [htv] at htl
          cases hrec : tokensLoop currency ae rest with
          | error m => rw [hrec] at htl; cases htl
          | ok tbr =>
              rw [hrec] at htl
              cases htl
              have ihh := ih tbr hrec sym v
              constructor
              · intro hmem
                by_cases h0 : 0 < v0
                · rw [if_pos h0] at hmem
                  rcases List.mem_cons.mp hmem with heq | htail
                  · have h1 : sym = t := congrArg Prod.fst heq
                    have h2 : v = v0 := congrArg Prod.snd heq
                    subst h1
                    subst h2
                    exact ⟨cfg, List.mem_cons_self _ _, htv, h0⟩
                  · obtain ⟨cfg2, hc1, hc2, hc3⟩ := ihh.mp htail
                    exact ⟨cfg2, List.mem_cons_of_mem _ hc1, hc2, hc3⟩
                · rw [if_neg h0] at hmem
                  obtain ⟨cfg2, hc1, hc2, hc3⟩ := ihh.mp hmem
                  exact ⟨cfg2, List.mem_cons_of_mem _ hc1, hc2, hc3⟩
              · rintro ⟨cfg2, hc1, hc2, hc3⟩
                rcases List.mem_cons.mp hc1 with heq | htail
                · have h1 : sym = t := congrArg Prod.fst heq
                  have h2 : cfg2 = cfg := congrArg Prod.snd heq
                  subst h1
                  subst h2
                  rw [htv] at hc2
                  have hv0 : v0 = v := Except.ok.inj hc2
                  subst hv0
                  rw [if_pos hc3]
                  exact List.mem_cons_self _ _
                · have hmem := ihh.mpr ⟨cfg2, htail, hc2, hc3⟩
                  by_cases h0 : 0 < v0
                  · rw [if_pos h0]
                    exact List.mem_cons_of_mem _ hmem
                  · rw [if_neg h0]
                    exact hmem

/-- A failed attempt makes `runAttempt` propagate an error to the catch
block, whichever access method the provider uses. -/
theorem runAttempt_fails (currency : String) (p : Provider) (net : NetworkCfg)
    (ae : AttemptEnv) (hc : ∃ m, ae.client = .error m)
    (hr : ∃ m, restCore currency p ae.primary = .error m) :
    ∃ m, runAttempt currency p net ae = .error m := by
  obtain ⟨m1, hc⟩ := hc
  obtain ⟨m2, hr⟩ := hr
  by_cases h1 : p.method = some "getBalance"
  · exact ⟨m1, by simp [runAttempt, h1, hc, Except.map]⟩
  · by_cases h2 : p.name = "toncenter"
    · exact ⟨m1, by simp [runAttempt, h1, h2, hc, Except.map]⟩
    · exact ⟨m2, by simp [runAttempt, h1, h2, hr]⟩

/-- When every attempt of one provider throws, its retry loop never
produces a result. -/
theorem retryLoop_all_fail (currency : String) (p : Provider) (net : NetworkCfg)
    (att : Nat → AttemptEnv)
    (h : ∀ j, ∃ m, runAttempt currency p net (att j) = .error m) :
    ∀ (retries : Nat) (k delay : Nat),
      (retryLoop currency p net att k retries delay).result = none := by
  intro retries
  induction retries with
  | zero => intro k delay; rfl
  | succ r ih =>
      intro k delay
      obtain ⟨m, hm⟩ := h k
      by_cases hr : 0 < r <;> simp [retryLoop, hm, hr, ih]

/-- When every attempt throws for every listed provider, the provider loop
exhausts them all and falls through to the final `return { native: 0n }`. -/
theorem providerLoop_all_fail (currency : String) (net : NetworkCfg)
    (att : Nat → AttemptEnv) :
    ∀ (ps : List Provider),
      (∀ j, ∀ p ∈ ps, ∃ m, runAttempt currency p net (att j) = .error m) →
      ∀ (k : Nat), (providerLoop currency net att ps k).1 = ⟨0, none⟩ := by
  intro ps
  induction ps with
  | nil => intro _ k; rfl
  | cons p rest ih =>
      intro h k
      have hr := retryLoop_all_fail currency p net att
        (fun j => h j p (List.mem_cons_self _ _)) 3 k 4000
      have hrest : ∀ j, ∀ p2 ∈ rest, ∃ m, runAttempt currency p2 net (att j) = .error m :=
        fun j p2 hp2 => h j p2 (List.mem_cons_of_mem _ hp2)
      simp [providerLoop, hr, ih hrest]

/-- REST processing of a thrown fetch is the thrown error. -/
theorem restCore_throw (currency : String) (p : Provider) (m : String) :
    restCore currency p (.oThrow m) = .error m := rfl

/-- REST processing of a non-2xx response throws, a 429 with the
distinguished rate-limiting message. -/
theorem restCore_non2xx (currency : String) (p : Provider) (st : Nat) (body : Json) :
    restCore currency p (.oResp false st body)
      = .error (if st = 429 then "API request failed with status 429 (Rate Limited)"
                else "API request failed with status " ++ toString st) := rfl

/-- A malformed numeric value at the response path fails the attempt the
way a network error would: `BigInt` throws inside the `try`. -/
theorem restCore_malformed :
    restCore "tron" ⟨"trongrid", false, some "data[0].balance", none⟩
      (.oResp true 200 (.obj [("data", .arr [.obj [("balance", .str "abc")]])]))
      = .error "SyntaxError: cannot convert string to a BigInt" := rfl

/-- The provider names the pipeline attempts form a prefix of the
configured provider list, in configuration order. -/
theorem providerLoop_attempts_prefix (currency : String) (net : NetworkCfg)
    (att : Nat → AttemptEnv) :
    ∀ (ps : List Provider) (k : Nat),
      ∃ j, (providerLoop currency net att ps k).2 = (ps.map Provider.name).take j := by
  intro ps
  induction ps with
  | nil => exact fun k => ⟨0, rfl⟩
  | cons p rest ih =>
      intro k
      cases hres : (retryLoop currency p net att k 3 4000).result with
      | some r => exact ⟨1, by simp [providerLoop, hres]⟩
      | none =>
          obtain ⟨j, hj⟩ := ih (k + 3)
          exact ⟨j + 1, by simp [providerLoop, hres, hj]⟩

/-- The tron pipeline with native balance `n` and an arbitrary USDT
lookup outcome: the token pass always runs (whatever `n`), and the USDT
entry is present exactly when the looked-up value is strictly positive. -/
theorem getBalance_tron_tokens (n : Int) (co : CallOutcome) (v : Int)
    (hv : tokenVal "tron" (aeTronTokenOf n co) "usdt"
        ⟨"TXLAQ63Xg1NAzckPwKHvzw7CSEmLMEqcdj", 6⟩ = .ok v) :
    getBalance "tron" (envTronTokenOf n co)
      = ⟨n, if 0 < v then some [("usdt", v)] else none⟩ := by
  have hb : bigIntOfJson (.num (n : Rat)) = .ok n := bigIntOfJson_intCast n
  have hv2 := hv
  simp only [aeTronTokenOf] at hv2
  by_cases h : 0 < v <;>
    simp [getBalance, apiProviders, networks, providerLoop, retryLoop, runAttempt, restCore,
      envTronTokenOf, aeTronTokenOf, isEmptyDataArr, statusIsOne, jsField, jsLookup,
      getNestedValue, jsSplitDot, splitOnDotAux, stepSeg, findIdxMatch, findIdxMatchAux,
      spanList, jsTruthy, jsIndexStr, jsIndexNat, natOfDigits, isWordChar, tokensLoop,
      hb, hv2, h]

/-- The ethereum pipeline with native balance `n` and an arbitrary USDT
lookup outcome: a successful lookup gates the token entry on strict
positivity, while a throwing lookup propagates out of the unguarded fetch
to the retry loop, exhausts etherscan's three attempts, and ends in the
zero result (the native balance is lost). -/
theorem getBalance_ethereum_tokens (n : Int) (co : CallOutcome) :
    getBalance "ethereum" (envEthTokenOf n co)
      = match tokenVal "ethereum" (aeEthTokenOf n co) "usdt"
            ⟨"0xdac17f958d2ee523a2206206994597c13d831ec7", 6⟩ with
        | .ok v => ⟨n, if 0 < v then some [("usdt", v)] else none⟩
        | .error _ => ⟨0, none⟩ := by
  have hb : bigIntOfJson (.num (n : Rat)) = .ok n := bigIntOfJson_intCast n
  cases htv : tokenVal "ethereum" (aeEthTokenOf n co) "usdt"
      ⟨"0xdac17f958d2ee523a2206206994597c13d831ec7", 6⟩ with
  | ok v =>
      have htv2 := htv
      simp only [aeEthTokenOf] at htv2
      by_cases h : 0 < v <;>
        simp [getBalance, apiProviders, networks, providerLoop, retryLoop, runAttempt,
          restCore, envEthTokenOf, aeEthTokenOf, isEmptyDataArr, statusIsOne, jsField,
          jsLookup, getNestedValue, jsSplitDot, splitOnDotAux, stepSeg, findIdxMatch,
          findIdxMatchAux, spanList, jsTruthy, jsIndexStr, jsIndexNat, natOfDigits,
          isWordChar, tokensLoop, hb, htv2, h]
  | error m =>
      have htv2 := htv
      simp only [aeEthTokenOf] at htv2
      have hra : ∀ j, ∀ p ∈ apiProviders "ethereum",
          ∃ m2, runAttempt "ethereum" p (networks "ethereum")
            ((envEthTokenOf n co).attempt j) = .error m2 := by
        intro j p hp
        simp only [apiProviders, List.mem_singleton] at hp
        subst hp
        exact ⟨m, by
          simp [runAttempt, restCore, envEthTokenOf, aeEthTokenOf, isEmptyDataArr,
            statusIsOne, jsField, jsLookup, getNestedValue, jsSplitDot, splitOnDotAux,
            stepSeg, findIdxMatch, findIdxMatchAux, spanList, jsTruthy, jsIndexStr,
            natOfDigits, isWordChar, networks, tokensLoop, hb, htv2]⟩
      have hz := providerLoop_all_fail "ethereum" (networks "ethereum")
        (envEthTokenOf n co).attempt (apiProviders "ethereum") hra 0
      simp only [htv]
      simpa [getBalance, apiProviders] using hz

/-! ## Claim theorems -/

/-- C1 (counterexample): with tron's only provider `trongrid` still cooling
down at clock reading 50 (cooldown set to 60000 at 0), the pipeline
nevertheless issues its requests to `trongrid`: the pipeline does not
consult the registry's cooldown state. -/
theorem spec_c1_counterexample :
    providerInCooldown cooledRegistry "tron" "trongrid" 50 = true
    ∧ attemptedProviders "tron" envAllFailW = ["trongrid"] := ⟨rfl, rfl⟩

/-- C1 (amended): the pipeline iterates the statically configured provider
list of the currency in configuration order, attempting a prefix of it
(stopping early on success); it takes no registry state and therefore
ignores rotation and cooldowns. -/
theorem spec_c1_amended (currency : String) (env : Env) :
    ∃ j, attemptedProviders currency env
      = ((apiProviders currency).map Provider.name).take j := by
  by_cases hb : currency = "bitcoin"
  · exact ⟨0, by simp [attemptedProviders, hb]⟩
  · by_cases he : apiProviders currency = []
    · exact ⟨0, by simp [attemptedProviders, hb, he]⟩
    · obtain ⟨j, hj⟩ := providerLoop_attempts_prefix currency (networks currency)
        env.attempt (apiProviders currency) 0
      exact ⟨j, by simp [attemptedProviders, hb, he, hj]⟩

/-- C2: whatever the currency, when every outbound call fails — in any of
the claim's modes: thrown fetch (network error), non-2xx status with 429
included, malformed response value rejected by `BigInt`, failing RPC
client, no providers configured, or plain exhaustion — the pipeline
returns the zero `BalanceResult` instead of raising: the bitcoin branch
catches its aggregator failure, a currency without providers
short-circuits, and otherwise every retry of every provider fails and the
final `return { native: 0n }` is reached. -/
theorem spec_c2_never_throws (currency : String) (env : Env)
    (h : envAllFail currency env) : getBalance currency env = ⟨0, none⟩ := by
  obtain ⟨hb, hatt⟩ := h
  by_cases hbit : currency = "bitcoin"
  · rcases hb with ⟨m, hm⟩ | ⟨st, body, hm⟩ | ⟨st, body, hm, hnum⟩
    · simp [getBalance, hbit, btcBranch, hm]
    · simp [getBalance, hbit, btcBranch, hm]
    · simp [getBalance, hbit, btcBranch, hm, hnum]
  · by_cases he : apiProviders currency = []
    · simp [getBalance, hbit, he]
    · have hz := providerLoop_all_fail currency (networks currency) env.attempt
        (apiProviders currency)
        (fun j p hp => runAttempt_fails currency p (networks currency) (env.attempt j)
          (hatt j).1 ((hatt j).2 p hp)) 0
      simp [getBalance, hbit, he, hz]

theorem spec_c2_witness : getBalance "tron" env429 = ⟨0, none⟩ :=
  spec_c2_never_throws "tron" env429
    ⟨Or.inr (Or.inl ⟨429, .null, rfl⟩),
     fun _ =>
       ⟨⟨"rate limited", rfl⟩, fun p hp => by
         simp only [apiProviders, List.mem_singleton] at hp
         exact ⟨"API request failed with status 429 (Rate Limited)", by rw [hp]; rfl⟩⟩⟩

/-- C3 (counterexample): the bitcoin branch computes its native balance by
a binary64 multiplication and `Math.round`.  On the response
`{"balance": 1/512}` (0.001953125 BTC — the double `2^(-9)`, exactly
representable, as is the factor `1e8`) the exact product is
`195312.5 = 390625 × 2^(-1)`, which fits in 19 significand bits, so the
IEEE multiplication is exact — the proof shows the binary64 rounding `fl`
fixes it — and `Math.round` gives 195313.  The pipeline thus returns
native balance 195313 although the exact scaled amount is not an integer:
a fractional floating-point intermediate entered the on-chain amount
computation inside the pipeline. -/
theorem spec_c3_counterexample :
    getBalance "bitcoin" (envBtcOf (1 / 512)) = ⟨195313, none⟩
    ∧ ((1 : Rat) / 512) * 100000000 ≠ ((195313 : Int) : Rat) := by
  have hfl : fl ((1 / 512 : Rat) * 100000000) = (1 / 512 : Rat) * 100000000 := by
    apply fl_eq_of_repr _ 390625 (-1)
    · norm_num
    · norm_num
    · norm_num [zpow_neg_one]
  constructor
  · have h1 : getBalance "bitcoin" (envBtcOf (1 / 512))
        = ⟨jsRound (fl ((1 / 512 : Rat) * 100000000)), none⟩ := rfl
    have h2 : jsRound ((1 / 512 : Rat) * 100000000) = 195313 := by
      rw [jsRound_eq_floor]; norm_num
    rw [h1, hfl, h2]
  · norm_num

/-- C3 (amended): the generic provider paths are integer-exact — etherscan
and trongrid convert the extracted value by arbitrary-precision `BigInt`
parsing with no rounding, and the solana/toncenter client balances are
returned as-is — but the bitcoin aggregator branch and both USDT token
sub-lookups (ethereum and tron) receive main-unit decimal amounts and
compute `Math.round` of the binary64 product `balance * 10^decimals`, so
floating-point intermediates do enter those on-chain amount computations
inside the pipeline; the USD conversion at the boundary is additionally
floating-point. -/
theorem spec_c3_amended (q : Rat) (v : Json) (n : Int) :
    getBalance "bitcoin" (envBtcOf q) = ⟨jsRound (fl (q * 100000000)), none⟩
    ∧ (bigIntOfJson v = .ok n →
        restCore "ethereum" ⟨"etherscan", true, some "result", none⟩
          (.oResp true 200 (.obj [("status", .str "1"), ("result", v)]))
          = .ok (.inr n))
    ∧ (bigIntOfJson v = .ok n →
        restCore "tron" ⟨"trongrid", false, some "data[0].balance", none⟩
          (.oResp true 200 (.obj [("data", .arr [.obj [("balance", v)]])]))
          = .ok (.inr n))
    ∧ runAttempt "solana" ⟨"solana", false, some "value", some "getBalance"⟩
        (networks "solana") (aeClientOf n) = .ok ⟨n, none⟩
    ∧ runAttempt "ton" ⟨"toncenter", true, none, none⟩ (networks "ton")
        (aeClientOf n) = .ok ⟨n, none⟩
    ∧ tokenVal "ethereum" (aeUsdtOf q) "usdt"
        ⟨"0xdac17f958d2ee523a2206206994597c13d831ec7", 6⟩
        = .ok (jsRound (fl (q * (10 : Rat) ^ 6)))
    ∧ tokenVal "tron" (aeUsdtOf q) "usdt" ⟨"TXLAQ63Xg1NAzckPwKHvzw7CSEmLMEqcdj", 6⟩
        = .ok (jsRound (fl (q * (10 : Rat) ^ 6))) := by
  have key : ∀ (w : Json), bigIntOfJson w = .ok n →
      (match bigIntOfJson w with
        | Except.ok k => (Except.ok (Sum.inr k) : Except String (Sum BalanceResult Int))
        | Except.error m => Except.error m) = Except.ok (Sum.inr n) := by
    intro w hw
    rw [hw]
  refine ⟨rfl, fun hv => ?_, fun hv => ?_, rfl, rfl, rfl, rfl⟩
  · cases v with
    | null => simp [bigIntOfJson] at hv
    | arr xs => simp [bigIntOfJson] at hv
    | obj fs => simp [bigIntOfJson] at hv
    | num q2 => exact key _ hv
    | str s => exact key _ hv
    | bool b => exact key _ hv
  · cases v with
    | null => simp [bigIntOfJson] at hv
    | arr xs => simp [bigIntOfJson] at hv
    | obj fs => simp [bigIntOfJson] at hv
    | num q2 => exact key _ hv
    | str s => exact key _ hv
    | bool b => exact key _ hv

theorem spec_c3_witness :
    getBalance "bitcoin" (envBtcOf 1) = ⟨jsRound (fl ((1 : Rat) * 100000000)), none⟩
    ∧ restCore "ethereum" ⟨"etherscan", true, some "result", none⟩
        (.oResp true 200 (.obj [("status", .str "1"), ("result", .str "7")]))
        = .ok (.inr 7)
    ∧ restCore "tron" ⟨"trongrid", false, some "data[0].balance", none⟩
        (.oResp true 200 (.obj [("data", .arr [.obj [("balance", .str "7")]])]))
        = .ok (.inr 7) :=
  ⟨(spec_c3_amended 1 (.str "7") 7).1, (spec_c3_amended 1 (.str "7") 7).2.1 rfl,
   (spec_c3_amended 1 (.str "7") 7).2.2.1 rfl⟩

/-- C4 (counterexample): with a tron native balance of 0 the USDT
sub-lookup is still performed and its positive result (5 USDT, scaled by
the float-exact `5 * 10^6`) is returned: the token pass is not gated on a
strictly positive native balance. -/
theorem spec_c4_counterexample :
    getBalance "tron" (envTronOf 0 5) = ⟨0, some [("usdt", 5000000)]⟩ := by
  have hfl : fl ((5 : Rat) * (10 : Rat) ^ 6) = (5 : Rat) * (10 : Rat) ^ 6 :=
    fl_eq_of_repr _ 5000000 0 (by norm_num) (by norm_num) (by norm_num [zpow_zero])
  have hjs : jsRound ((5 : Rat) * (10 : Rat) ^ 6) = 5000000 := by
    rw [jsRound_eq_floor]; norm_num
  have htv : tokenVal "tron"
      (aeTronTokenOf 0 (.oResp true 200 (.obj [("balance", .num 5)]))) "usdt"
      ⟨"TXLAQ63Xg1NAzckPwKHvzw7CSEmLMEqcdj", 6⟩ = .ok 5000000 := by
    simp [tokenVal, aeTronTokenOf, jsNumField, jsLookup, jsToNumber, hfl, hjs]
  have h := getBalance_tron_tokens 0 (.oResp true 200 (.obj [("balance", .num 5)]))
    5000000 htv
  simpa [envTronOf] using h

/-- C4 (amended): the per-token sub-lookups run whenever the currency
configures secondary tokens, regardless of the native balance (`n` ranges
over all integers, 0 included), and for every lookup outcome the returned
token map contains the symbol exactly when its looked-up balance is
strictly positive, with exactly that value: on tron every outcome yields a
value (failures are swallowed as 0); on ethereum a successful lookup gates
the entry the same way, while a throwing lookup propagates to the retry
loop and ends in the zero result; and in general membership in the
accumulated token map is equivalent to a configured token of that symbol
looking up that strictly positive value. -/
theorem spec_c4_amended :
    (∀ (n : Int) (co : CallOutcome) (v : Int),
        tokenVal "tron" (aeTronTokenOf n co) "usdt"
            ⟨"TXLAQ63Xg1NAzckPwKHvzw7CSEmLMEqcdj", 6⟩ = .ok v →
        getBalance "tron" (envTronTokenOf n co)
          = ⟨n, if 0 < v then some [("usdt", v)] else none⟩)
    ∧ (∀ (n : Int) (co : CallOutcome),
        getBalance "ethereum" (envEthTokenOf n co)
          = match tokenVal "ethereum" (aeEthTokenOf n co) "usdt"
                ⟨"0xdac17f958d2ee523a2206206994597c13d831ec7", 6⟩ with
            | .ok v => ⟨n, if 0 < v then some [("usdt", v)] else none⟩
            | .error _ => ⟨0, none⟩)
    ∧ (∀ (currency : String) (ae : AttemptEnv) (toks : List (String × TokenCfg))
          (tb : List (String × Int)),
        tokensLoop currency ae toks = .ok tb →
        ∀ (sym : String) (v : Int),
          ((sym, v) ∈ tb ↔
            ∃ cfg, (sym, cfg) ∈ toks ∧ tokenVal currency ae sym cfg = .ok v ∧ 0 < v)) :=
  ⟨fun n co v hv => getBalance_tron_tokens n co v hv,
   fun n co => getBalance_ethereum_tokens n co,
   fun currency ae toks tb htl => tokensLoop_mem currency ae toks tb htl⟩

theorem spec_c4_witness :
    getBalance "tron" (envTronTokenOf 7 (.oThrow "boom")) = ⟨7, none⟩ := by
  have h := (spec_c4_amended).1 7 (.oThrow "boom") 0 rfl
  simpa using h

/-- C5 (counterexample): on body `{"a": 0}` with path `a.b.c` the segment
`b` does not resolve — the claim then demands an absent result — yet the
extractor returns the present scalar `0`: a falsy accumulator
short-circuits `o && o[i]` and is returned itself, in JavaScript as in
the model. -/
theorem spec_c5_counterexample :
    getNestedValue (.obj [("a", .num 0)]) "a.b.c" = some (.num 0) := rfl

/-- C5 (amended): the extractor is total — an `undefined` accumulator
absorbs all remaining segments, so a missing segment never throws — and
on the example body `data[0].balance` addresses the scalar `"500"`, which
the pipeline converts to native balance 500, while the out-of-range
`data[1].balance` is absent and yields native balance 0; the one
exception to missing-segment-gives-absent is a present falsy
intermediate (such as `0`), which `o && o[i]` returns unchanged. -/
theorem spec_c5_amended :
    getNestedValue extractionBody "data[0].balance" = some (.str "500")
    ∧ bigIntOfJson (.str "500") = .ok 500
    ∧ getBalance "tron" envExtraction = ⟨500, none⟩
    ∧ getNestedValue extractionBody "data[1].balance" = none
    ∧ (providerLoop "tron" (networks "tron") envExtraction.attempt [outOfRangeProvider] 0).1
        = ⟨0, none⟩
    ∧ (∀ segs : List String, segs.foldl stepSeg none = none)
    ∧ (∀ (j : Json) (seg : String), jsTruthy j = false → findIdxMatch seg = none →
        stepSeg (some j) seg = some j) := by
  refine ⟨rfl, rfl, rfl, rfl, rfl, ?_, ?_⟩
  · intro segs
    induction segs with
    | nil => rfl
    | cons s rest ih =>
        have hstep : stepSeg none s = none := by
          unfold stepSeg
          cases h : findIdxMatch s with
          | none => simp
          | some ab => obtain ⟨a, b⟩ := ab; simp
        rw [List.foldl_cons, hstep]
        exact ih
  · intro j seg h1 h2
    unfold stepSeg
    rw [h2]
    simp [h1]

theorem spec_c5_witness :
    stepSeg (some (.num 0)) "b" = some (.num 0) :=
  (spec_c5_amended).2.2.2.2.2.2 (.num 0) "b" rfl rfl

/-- C8: a provider failing on attempts 1 and 2 and succeeding on attempt 3
sleeps 4000 ms after the first failure and 8000 ms after the second (the
doubling backoff), logs exactly 2 failures, and then returns the
successful result; the total sleep is at least 4000 + 8000 ms. -/
theorem spec_c8_backoff (n : Int) :
    retryLoop "ton" ⟨"toncenter", true, none, none⟩ (networks "ton")
      (envTonRetries n).attempt 0 3 4000 = ⟨some ⟨n, none⟩, [4000, 8000], 2⟩
    ∧ getBalance "ton" (envTonRetries n) = ⟨n, none⟩
    ∧ 4000 + 8000 ≤ ([4000, 8000] : List Nat).sum :=
  ⟨rfl, rfl, by decide⟩

/-- C10: `deriveAddress` succeeds exactly on bitcoin, solana, ton and tron;
every other currency — ethereum included — hits the default branch and its
`Unsupported currency for derivation` error, while `startBot` derives the
ethereum address through `ethers.Wallet.fromPhrase` outside the strategy
table. -/
theorem spec_c10_derivation (s : DeriveStrategies) (km : KeyMaterial) :
    (∀ c ∈ (["bitcoin", "solana", "ton", "tron"] : List String),
        ∃ a, deriveAddress s c km = .ok a)
    ∧ (∀ c : String, c ∉ (["bitcoin", "solana", "ton", "tron"] : List String) →
        deriveAddress s c km = .error ("Unsupported currency for derivation: " ++ c))
    ∧ deriveAddress s "ethereum" km = .error "Unsupported currency for derivation: ethereum"
    ∧ startBotAddress s "ethereum" km = .ok (s.ethereumFromPhrase km.mnemonic) := by
  refine ⟨?_, ?_, rfl, rfl⟩
  · intro c hc
    fin_cases hc
    · exact ⟨_, rfl⟩
    · exact ⟨_, rfl⟩
    · exact ⟨_, rfl⟩
    · exact ⟨_, rfl⟩
  · intro c hc
    simp only [List.mem_cons, List.not_mem_nil, or_false, not_or] at hc
    obtain ⟨h1, h2, h3, h4⟩ := hc
    simp [deriveAddress, h1, h2, h3, h4]

theorem spec_c10_witness :
    deriveAddress ⟨fun _ => "1A", fun _ => "So", fun _ => "EQ", fun _ => "TX", fun m => m⟩
      "ethereum" ⟨[], 0, "abandon"⟩
      = .error "Unsupported currency for derivation: ethereum" :=
  (spec_c10_derivation ⟨fun _ => "1A", fun _ => "So", fun _ => "EQ", fun _ => "TX",
    fun m => m⟩ ⟨[], 0, "abandon"⟩).2.2.1

/-! ## Rotation registry lemmas -/

theorem alGet_alSet {α : Type} (l : List (String × α)) (k : String) (v : α) (k2 : String) :
    alGet (alSet l k v) k2 = if k2 = k then some v else alGet l k2 := by
  induction l with
  | nil =>
      by_cases h : k2 = k
      · simp [alSet, alGet, h]
      · simp [alSet, alGet, h, Ne.symm h]
  | cons kv rest ih =>
      obtain ⟨k3, w⟩ := kv
      by_cases h3 : k3 = k
      · by_cases h : k2 = k
        · simp [alSet, alGet, h3, h]
        · simp [alSet, alGet, h3, h, Ne.symm h]
      · by_cases h : k2 = k3 <;> by_cases h2 : k2 = k <;>
          simp_all [alSet, alGet, h3, h]

/-- Any index the scan returns passed the `now >= cooldownUntil` test. -/
theorem rotGo_eligible (st : RotState) (c : String) (now : Nat) (avail : List RotProvider) :
    ∀ (k i ci : Nat), rotGo st c now avail i k = some ci →
      (alGet st.cooldowns (cdKey c (avail.getD ci ⟨""⟩).name)).getD 0 ≤ now := by
  intro k
  induction k with
  | zero => intro i ci h; simp [rotGo] at h
  | succ k ih =>
      intro i ci h
      simp only [rotGo] at h
      by_cases hcu :
          (alGet st.cooldowns
            (cdKey c (avail.getD ((i + 1) % avail.length) ⟨""⟩).name)).getD 0 ≤ now
      · rw [if_pos hcu] at h
        cases h
        exact hcu
      · rw [if_neg hcu] at h
        exact ih _ _ h

/-- With every registered provider eligible, `getNextProvider` returns the
provider just after the remembered index and stores the new index. -/
theorem getNextProvider_all_eligible (st : RotState) (c : String) (ps : List RotProvider)
    (now : Nat) (hreg : alGet st.registered c = some ps) (hps : ps ≠ [])
    (hcd : ∀ p ∈ ps, (alGet st.cooldowns (cdKey c p.name)).getD 0 ≤ now) :
    getNextProvider st c now =
      (some (ps.getD (((alGet st.lastUsedIndex c).getD 0 + 1) % ps.length) ⟨""⟩),
       RotState.mk st.registered
         (alSet st.lastUsedIndex c (((alGet st.lastUsedIndex c).getD 0 + 1) % ps.length))
         st.cooldowns) := by
  have hlen : ps.length ≠ 0 := fun h => hps (List.length_eq_zero.mp h)
  have hpos : 0 < ps.length := Nat.pos_of_ne_zero hlen
  have step : ∀ i : Nat, rotGo st c now ps i ps.length = some ((i + 1) % ps.length) := by
    intro i
    obtain ⟨m, hm⟩ := Nat.exists_eq_succ_of_ne_zero hlen
    rw [hm]
    simp only [rotGo]
    have hci : (i + 1) % ps.length < ps.length := Nat.mod_lt _ hpos
    have hmem : ps.getD ((i + 1) % ps.length) ⟨""⟩ ∈ ps := by
      rw [List.getD_eq_getElem _ _ hci]
      exact List.getElem_mem _
    rw [if_pos (hcd _ hmem), hm]
  unfold getNextProvider
  simp only [hreg, Option.getD_some]
  rw [if_neg hlen, step]

/-- With every provider eligible at every call time, `m` consecutive calls
walk the list cyclically from just after the remembered index. -/
theorem callSeq_all_eligible (c : String) (ps : List RotProvider) (hps : ps ≠ []) :
    ∀ (m : Nat) (st : RotState) (times : Nat → Nat),
      alGet st.registered c = some ps →
      (∀ i p, p ∈ ps → (alGet st.cooldowns (cdKey c p.name)).getD 0 ≤ times i) →
      (callSeq st c m times).1 =
        (List.range m).map (fun i =>
          some (ps.getD (((alGet st.lastUsedIndex c).getD 0 + 1 + i) % ps.length) ⟨""⟩)) := by
  intro m
  induction m with
  | zero => intro st times hreg hcd; rfl
  | succ m ih =>
      intro st times hreg hcd
      have hstep := getNextProvider_all_eligible st c ps (times 0) hreg hps
        (fun p hp => hcd 0 p hp)
      simp only [callSeq, hstep]
      have hl1 : (alGet (alSet st.lastUsedIndex c
            (((alGet st.lastUsedIndex c).getD 0 + 1) % ps.length)) c).getD 0
          = ((alGet st.lastUsedIndex c).getD 0 + 1) % ps.length := by
        simp [alGet_alSet]
      have ihh := ih (RotState.mk st.registered
          (alSet st.lastUsedIndex c (((alGet st.lastUsedIndex c).getD 0 + 1) % ps.length))
          st.cooldowns)
        (fun i => times (i + 1)) hreg (fun i p hp => hcd (i + 1) p hp)
      simp only [hl1] at ihh
      rw [ihh]
      apply List.ext_getElem
      · simp
      · intro i h1 h2
        cases i with
        | zero =>
            simp only [List.getElem_cons_zero, List.getElem_map, List.getElem_range,
              Nat.add_zero]
        | succ i =>
            simp only [List.getElem_cons_succ, List.getElem_map, List.getElem_range]
            have h3 : ((alGet st.lastUsedIndex c).getD 0 + 1) % ps.length + 1 + i
                = ((alGet st.lastUsedIndex c).getD 0 + 1) % ps.length + (1 + i) := by omega
            have h4 : (((alGet st.lastUsedIndex c).getD 0 + 1) % ps.length + (1 + i))
                  % ps.length
                = ((alGet st.lastUsedIndex c).getD 0 + 1 + (1 + i)) % ps.length :=
              Nat.mod_add_mod _ _ _
            have h5 : (alGet st.lastUsedIndex c).getD 0 + 1 + (1 + i)
                = (alGet st.lastUsedIndex c).getD 0 + 1 + (i + 1) := by omega
            rw [h3, h4, h5]

/-- A cyclic walk of the whole list is its rotation. -/
theorem range_map_mod_eq_rotate (ps : List RotProvider) (hps : ps ≠ []) (s : Nat) :
    (List.range ps.length).map (fun i => ps.getD ((s + i) % ps.length) ⟨""⟩)
      = ps.rotate (s % ps.length) := by
  have hpos : 0 < ps.length := List.length_pos.mpr hps
  apply List.ext_getElem
  · simp [List.length_rotate]
  · intro i h1 h2
    simp only [List.getElem_map, List.getElem_range, List.getElem_rotate]
    have hlt : (s + i) % ps.length < ps.length := Nat.mod_lt _ hpos
    rw [List.getD_eq_getElem _ _ hlt]
    congr 1
    rw [Nat.add_comm i (s % ps.length), Nat.mod_add_mod]

/-- C6: for `N` registered providers none of which is cooling down at any
of the call times, `N` consecutive `getNextProvider` calls return exactly
the rotation of the provider list starting just after the remembered
index — so each provider is returned exactly once before any repeats. -/
theorem spec_c6_rotation_fairness (st : RotState) (c : String) (ps : List RotProvider)
    (times : Nat → Nat) (hreg : alGet st.registered c = some ps) (hps : ps ≠ [])
    (hcd : ∀ i p, p ∈ ps → (alGet st.cooldowns (cdKey c p.name)).getD 0 ≤ times i) :
    (callSeq st c ps.length times).1
      = (ps.rotate (((alGet st.lastUsedIndex c).getD 0 + 1) % ps.length)).map some
    ∧ (callSeq st c ps.length times).1.Perm (ps.map some)
    ∧ (ps.Nodup → (callSeq st c ps.length times).1.Nodup) := by
  have h1 := callSeq_all_eligible c ps hps ps.length st times hreg hcd
  have h2 : (List.range ps.length).map
      (fun i => some (ps.getD (((alGet st.lastUsedIndex c).getD 0 + 1 + i) % ps.length) ⟨""⟩))
      = ((List.range ps.length).map
          (fun i => ps.getD (((alGet st.lastUsedIndex c).getD 0 + 1 + i) % ps.length)
            ⟨""⟩)).map some := by
    rw [List.map_map]
    rfl
  have h3 := range_map_mod_eq_rotate ps hps ((alGet st.lastUsedIndex c).getD 0 + 1)
  have hrot : (callSeq st c ps.length times).1
      = (ps.rotate (((alGet st.lastUsedIndex c).getD 0 + 1) % ps.length)).map some := by
    rw [h1, h2, h3]
  refine ⟨hrot, ?_, ?_⟩
  · rw [hrot]
    exact (ps.rotate_perm _).map some
  · intro hnd
    rw [hrot]
    exact (((ps.rotate_perm _).nodup_iff).mpr hnd).map (Option.some_injective _)

theorem spec_c6_witness :
    (callSeq ⟨[("c", [⟨"p1"⟩, ⟨"p2"⟩, ⟨"p3"⟩])], [], []⟩ "c" 3 (fun _ => 0)).1
      = [some ⟨"p2"⟩, some ⟨"p3"⟩, some ⟨"p1"⟩] := by
  have h := (spec_c6_rotation_fairness ⟨[("c", [⟨"p1"⟩, ⟨"p2"⟩, ⟨"p3"⟩])], [], []⟩ "c"
      [⟨"p1"⟩, ⟨"p2"⟩, ⟨"p3"⟩] (fun _ => 0) rfl (by simp)
      (fun i p hp => by simp [alGet])).1
  exact h.trans rfl

/-- C7: after `setCooldown(c, pname, dur)` at clock `t`, a call at any
clock `now < t + dur` never returns a provider named `pname` (whatever it
returns, cooling or not, it is some other provider). -/
theorem spec_c7_cooldown_respected (st : RotState) (c pname : String) (dur t now : Nat)
    (q : RotProvider) (st2 : RotState) (hnow : now < t + dur)
    (hcall : getNextProvider (setCooldown st c pname dur t) c now = (some q, st2)) :
    q.name ≠ pname := by
  intro hq
  unfold getNextProvider at hcall
  by_cases hlen :
      ((alGet (setCooldown st c pname dur t).registered c).getD []).length = 0
  · rw [if_pos hlen] at hcall
    cases hcall
  · rw [if_neg hlen] at hcall
    cases hgo : rotGo (setCooldown st c pname dur t) c now
        ((alGet (setCooldown st c pname dur t).registered c).getD [])
        ((alGet (setCooldown st c pname dur t).lastUsedIndex c).getD 0)
        ((alGet (setCooldown st c pname dur t).registered c).getD []).length with
    | none => rw [hgo] at hcall; cases hcall
    | some ci =>
        rw [hgo] at hcall
        have hq1 : some (((alGet (setCooldown st c pname dur t).registered c).getD []).getD
            ci ⟨""⟩) = some q := congrArg Prod.fst hcall
        have hq2 := Option.some.inj hq1
        have hcu := rotGo_eligible (setCooldown st c pname dur t) c now
          ((alGet (setCooldown st c pname dur t).registered c).getD []) _ _ _ hgo
        rw [hq2, hq] at hcu
        have hset : (alGet (setCooldown st c pname dur t).cooldowns (cdKey c pname)).getD 0
            = t + dur := by
          simp [setCooldown, alGet_alSet]
        rw [hset] at hcu
        omega

theorem spec_c7_witness : (RotProvider.mk "p2").name ≠ "p1" :=
  spec_c7_cooldown_respected ⟨[("c", [⟨"p1"⟩, ⟨"p2"⟩])], [], []⟩ "c" "p1" 60000 0 10
    ⟨"p2"⟩ _ (by decide) rfl

/-! ## Exchange-rate lemmas -/

/-- Both fallback branches leave every tracked currency at its hardcoded
price, whatever the cache held before. -/
theorem applyFallbacks_tracked (cache : List (String × Rat)) :
    ∀ p ∈ fallbackAssignments, alGet (applyFallbacks cache) p.1 = some p.2 := by
  intro p hp
  fin_cases hp <;>
    simp [applyFallbacks, fallbackAssignments, alGet_alSet]

/-- The success branch never touches a currency that no iterated symbol
maps to. -/
theorem foldl_rateStep_not_present (cur : String) :
    ∀ (es : List (String × Option Rat)) (cache : List (String × Rat)),
      (∀ e ∈ es, symbolToCurrency e.1 ≠ some cur) →
      alGet (es.foldl rateStep cache) cur = alGet cache cur := by
  intro es
  induction es with
  | nil => intro cache _; rfl
  | cons e rest ih =>
      intro cache h
      have he := h e (List.mem_cons_self _ _)
      have hrest := fun e2 h2 => h e2 (List.mem_cons_of_mem _ h2)
      rw [List.foldl_cons, ih _ hrest]
      unfold rateStep
      cases hsym : symbolToCurrency e.1 with
      | none => rfl
      | some cur2 =>
          have hne : cur ≠ cur2 := by
            intro hcc
            exact he (hcc ▸ hsym)
          cases e.2 with
          | none => rfl
          | some usd =>
              by_cases hu : usd = 0
              · simp [hu]
              · simp [hu, alGet_alSet, hne]

/-- C9: a total refresh failure (thrown fetch, non-ok response, or an
explicit error indicator) rewrites every tracked currency to its hardcoded
fallback price — in particular `getExchangeRate` then yields 60000 for
bitcoin — while a successful refresh overwrites only currencies some
iterated response symbol maps to. -/
theorem spec_c9_rates (cache : List (String × Rat)) (o : RatesOutcome) :
    (ratesTotalFailure o →
      ∀ p ∈ fallbackAssignments,
        getExchangeRate (updateAllExchangeRates cache o) p.1 = p.2)
    ∧ (¬ ratesTotalFailure o →
      ∀ cur : String, (∀ e ∈ ratesEntries o, symbolToCurrency e.1 ≠ some cur) →
        alGet (updateAllExchangeRates cache o) cur = alGet cache cur) := by
  constructor
  · intro hfail p hp
    have hupd : updateAllExchangeRates cache o = applyFallbacks cache := by
      cases o with
      | rThrow m => rfl
      | rResp ok data =>
          have hnot : ¬(ok = true ∧ data.isErrorResponse = false) := hfail
          simp only [updateAllExchangeRates]
          rw [if_neg hnot]
    rw [hupd]
    have := applyFallbacks_tracked cache p hp
    simp [getExchangeRate, this]
  · intro hsucc cur hcur
    cases o with
    | rThrow m => exact absurd trivial hsucc
    | rResp ok data =>
        have hok : ok = true ∧ data.isErrorResponse = false := by
          by_contra hno
          exact hsucc hno
        simp only [updateAllExchangeRates]
        rw [if_pos hok]
        exact foldl_rateStep_not_present cur data.entries cache hcur

theorem spec_c9_witness :
    getExchangeRate (updateAllExchangeRates [("bitcoin", 123)] (.rThrow "ECONNRESET"))
      "bitcoin" = 60000 :=
  (spec_c9_rates [("bitcoin", 123)] (.rThrow "ECONNRESET")).1 trivial ("bitcoin", 60000)
    (List.mem_cons_self _ _)
